import Mathlib

/-!
Verification of the SQL file splitter (`src/SqlSplitter/sql_splitter.py`).

The program reads an input SQL file line by line, skips comment lines,
accumulates lines into statements terminated by a semicolon, batches
statements, and flushes each batch to a sequentially numbered output file.

The embedding below mirrors the Python source:
  * `pyStrip`            — Python `str.strip()` (ASCII whitespace)
  * `pyStartsWith`       — Python `str.startswith`
  * `containsSemi`       — Python `';' in line`
  * `processLine`        — one iteration of the `for line in f` loop body
                           of `SQLSplitter.split_sql`
  * `finalize`           — the post-loop code of `split_sql` (trailing
                           statement capture and final flush)
  * `splitSql`           — the whole `split_sql` pass over a line list
  * `partFileName` / `fileContent` / `writeFileTo`
                         — `SQLSplitter._write_statements_to_file`
  * `initSplitter`       — the filesystem-visible part of
                           `SQLSplitter.__init__` (makedirs, existence check)
  * `splitSqlP`          — `split_sql` with the progress collaborator
                           (`_update_progress`) threaded through as an
                           arbitrary state-update function
Python strings are modelled as Lean `String`; the input file is modelled
as its list of lines (each line keeping its trailing newline, as Python's
`for line in f` yields them).
-/

/-- ASCII whitespace as recognised by Python's `str.strip()`. -/
def isPyWhitespace (c : Char) : Bool :=
  c = ' ' || c = '\t' || c = '\n' || c = '\r' || c = '\x0b' || c = '\x0c'

/-- Python `s.strip()`: remove leading and trailing whitespace. -/
def pyStrip (s : String) : String :=
  String.mk (((s.data.dropWhile isPyWhitespace).reverse.dropWhile isPyWhitespace).reverse)

/-- Auxiliary: is the first list a prefix of the second (as Booleans)? -/
def strStarts : List Char → List Char → Bool
  | [], _ => true
  | _ :: _, [] => false
  | a :: as, b :: bs => a = b && strStarts as bs

/-- Python `s.startswith(pre)`. -/
def pyStartsWith (s pre : String) : Bool :=
  strStarts pre.data s.data

/-- Python `';' in line`. -/
def containsSemi (s : String) : Bool :=
  s.data.any (fun c => c = ';')

/-- Python `sep.join(xs)`. -/
def sepJoin (sep : String) : List String → String
  | [] => ""
  | [x] => x
  | x :: y :: rest => x ++ sep ++ sepJoin sep (y :: rest)

/-- The comment test of `split_sql`:
`line.strip().startswith('--') or line.strip().startswith('/*')`. -/
def isCommentLine (line : String) : Bool :=
  pyStartsWith (pyStrip line) "--" || pyStartsWith (pyStrip line) "/*"

/-- Decimal digits of `n`, most significant first (fuel-based recursion,
mirroring Python's decimal formatting of a nonnegative int). -/
def natDigitsAux : Nat → Nat → List Char
  | 0, _ => []
  | fuel + 1, n =>
      if n < 10 then [Nat.digitChar n]
      else natDigitsAux fuel (n / 10) ++ [Nat.digitChar (n % 10)]

/-- Decimal representation of a natural number. -/
def decimalRepr (n : Nat) : String :=
  String.mk (natDigitsAux (n + 1) n)

/-- Python `f"{n:03d}"` for a nonnegative `n` and width `w`: pad the decimal
form with leading zeros to at least `w` characters; the width grows naturally
once the number needs more digits. -/
def padNat (w : Nat) (n : Nat) : String :=
  String.mk (List.replicate (w - (decimalRepr n).data.length) '0') ++ decimalRepr n

/-- The output file name of `_write_statements_to_file`:
`f"{input_filename}_part{file_index+1:03d}.sql"`. -/
def partFileName (stem : String) (fileIndex : Nat) : String :=
  stem ++ "_part" ++ padNat 3 (fileIndex + 1) ++ ".sql"

/-- The content written by `_write_statements_to_file`:
`'\n\n'.join(statements)`. -/
def fileContent (statements : List String) : String :=
  sepJoin "\n\n" statements

/-- Mutable state of `split_sql`: the current batch (`statements`), the
current statement buffer (`current_statement`), the next file index
(`current_file_index`), the running statement counter, and — to make the
output observable — the list of `(file name, batch)` pairs handed to
`_write_statements_to_file`, in write order. -/
structure SplitState where
  statements : List String
  currentStatement : List String
  fileIndex : Nat
  statementCount : Nat
  files : List (String × List String)
deriving Repr, DecidableEq

/-- The state at the start of `split_sql`. -/
def initState : SplitState :=
  { statements := [], currentStatement := [], fileIndex := 0,
    statementCount := 0, files := [] }

/-- One iteration of the `for line in f` loop body of `split_sql`
(`statements_per_file` is an `Int`, as Python's `--statements` option
accepts any integer). -/
def processLine (spf : Int) (stem : String) (st : SplitState) (line : String) :
    SplitState :=
  if isCommentLine line then st
  else
    let cs := st.currentStatement ++ [line]
    if containsSemi line then
      let stmt := pyStrip (String.join cs)
      if stmt = "" then
        { st with currentStatement := [] }
      else
        let stmts := st.statements ++ [stmt]
        if spf ≤ (stmts.length : Int) then
          { statements := [], currentStatement := [],
            fileIndex := st.fileIndex + 1,
            statementCount := st.statementCount + 1,
            files := st.files ++ [(partFileName stem st.fileIndex, stmts)] }
        else
          { st with statements := stmts, currentStatement := [],
                    statementCount := st.statementCount + 1 }
    else
      { st with currentStatement := cs }

/-- The post-loop code of `split_sql`: capture a trailing unterminated
statement, then flush the remaining batch (if non-empty) to a final file. -/
def finalize (stem : String) (st : SplitState) : SplitState :=
  let st1 :=
    if st.currentStatement = [] then st
    else
      let stmt := pyStrip (String.join st.currentStatement)
      if stmt = "" then st
      else
        { st with statements := st.statements ++ [stmt],
                  statementCount := st.statementCount + 1 }
  if st1.statements = [] then st1
  else
    { st1 with statements := [],
               fileIndex := st1.fileIndex + 1,
               files := st1.files ++ [(partFileName stem st1.fileIndex, st1.statements)] }

/-- The whole `split_sql` pass over the input's lines. -/
def splitSql (spf : Int) (stem : String) (lines : List String) : SplitState :=
  finalize stem (lines.foldl (processLine spf stem) initState)

/-- One step of the boundary-detection algorithm alone, with no batching:
state is `(statements emitted so far, current statement buffer)`. -/
def extractStep (acc : List String × List String) (line : String) :
    List String × List String :=
  if isCommentLine line then acc
  else
    let cs := acc.2 ++ [line]
    if containsSemi line then
      let stmt := pyStrip (String.join cs)
      if stmt = "" then (acc.1, []) else (acc.1 ++ [stmt], [])
    else
      (acc.1, cs)

/-- End-of-input step of the boundary-detection algorithm: capture a
trailing unterminated statement. -/
def extractFinal (acc : List String × List String) : List String :=
  if acc.2 = [] then acc.1
  else
    let stmt := pyStrip (String.join acc.2)
    if stmt = "" then acc.1 else acc.1 ++ [stmt]

/-- The full statement sequence the single-pass boundary-detection
algorithm produces over the whole input. -/
def extractStatements (lines : List String) : List String :=
  extractFinal (lines.foldl extractStep ([], []))

/-- The statement sequence a state accounts for: statements already
flushed to files, in file then intra-file order, followed by the
pending batch. -/
def seqOf (st : SplitState) : List String :=
  (st.files.map Prod.snd).flatten ++ st.statements

/-! ### Correspondence between the batching pass and pure boundary detection -/

theorem processLine_seq (spf : Int) (stem : String) (st : SplitState) (line : String) :
    seqOf (processLine spf stem st line)
      = (extractStep (seqOf st, st.currentStatement) line).1 ∧
    (processLine spf stem st line).currentStatement
      = (extractStep (seqOf st, st.currentStatement) line).2 := by
  by_cases hc : isCommentLine line = true
  · simp [processLine, extractStep, hc]
  · by_cases hs : containsSemi line = true
    · by_cases he : pyStrip (String.join (st.currentStatement ++ [line])) = ""
      · simp [processLine, extractStep, hc, hs, he, seqOf]
      · by_cases hf : spf ≤ (st.statements.length : Int) + 1
        · simp [processLine, extractStep, hc, hs, he, hf, seqOf, List.append_assoc]
        · simp [processLine, extractStep, hc, hs, he, hf, seqOf, List.append_assoc]
    · simp [processLine, extractStep, hc, hs, seqOf]

theorem foldl_seq (spf : Int) (stem : String) (lines : List String) (st : SplitState) :
    seqOf (lines.foldl (processLine spf stem) st)
      = (lines.foldl extractStep (seqOf st, st.currentStatement)).1 ∧
    (lines.foldl (processLine spf stem) st).currentStatement
      = (lines.foldl extractStep (seqOf st, st.currentStatement)).2 := by
  induction lines generalizing st with
  | nil => exact ⟨rfl, rfl⟩
  | cons line rest ih =>
      have h := processLine_seq spf stem st line
      have hpair : extractStep (seqOf st, st.currentStatement) line
          = (seqOf (processLine spf stem st line),
             (processLine spf stem st line).currentStatement) := by
        rw [Prod.ext_iff]
        exact ⟨h.1.symm, h.2.symm⟩
      rw [List.foldl_cons, List.foldl_cons, hpair]
      exact ih (processLine spf stem st line)

theorem finalize_seq (stem : String) (st : SplitState) :
    seqOf (finalize stem st) = extractFinal (seqOf st, st.currentStatement) ∧
    (finalize stem st).statements = [] := by
  by_cases h0 : st.currentStatement = []
  · by_cases h1 : st.statements = []
    · simp [finalize, extractFinal, h0, h1, seqOf]
    · simp [finalize, extractFinal, h0, h1, seqOf]
  · by_cases he : pyStrip (String.join st.currentStatement) = ""
    · by_cases h1 : st.statements = []
      · simp [finalize, extractFinal, h0, he, h1, seqOf]
      · simp [finalize, extractFinal, h0, he, h1, seqOf]
    · simp [finalize, extractFinal, h0, he, seqOf, List.append_assoc]

theorem splitSql_flatten (spf : Int) (stem : String) (lines : List String) :
    ((splitSql spf stem lines).files.map Prod.snd).flatten = extractStatements lines ∧
    (splitSql spf stem lines).statements = [] := by
  have hfold := foldl_seq spf stem lines initState
  have hinit : (seqOf initState, initState.currentStatement)
      = (([] : List String), ([] : List String)) := rfl
  rw [hinit] at hfold
  have hfin := finalize_seq stem (lines.foldl (processLine spf stem) initState)
  have hpair : (seqOf (lines.foldl (processLine spf stem) initState),
      (lines.foldl (processLine spf stem) initState).currentStatement)
      = lines.foldl extractStep ([], []) :=
    Prod.ext_iff.mpr ⟨hfold.1, hfold.2⟩
  have hstmts : (splitSql spf stem lines).statements = [] := hfin.2
  have hseq : seqOf (splitSql spf stem lines) = extractStatements lines := by
    unfold splitSql extractStatements
    rw [hfin.1, hpair]
  unfold seqOf at hseq
  rw [hstmts, List.append_nil] at hseq
  exact ⟨hseq, hstmts⟩

/-! ### Batch-size invariants -/

theorem processLine_batchInv (spf : Int) (hspf : 0 < spf) (stem : String)
    (st : SplitState) (line : String)
    (h1 : ∀ p ∈ st.files, (Prod.snd p).length = spf.toNat)
    (h2 : (st.statements.length : Int) < spf) :
    (∀ p ∈ (processLine spf stem st line).files, (Prod.snd p).length = spf.toNat) ∧
    (((processLine spf stem st line).statements.length : Int) < spf) := by
  simp only [processLine]
  split
  · exact ⟨h1, h2⟩
  · split
    · split
      · exact ⟨h1, h2⟩
      · split
        · rename_i hne hf
          rw [List.length_append, List.length_singleton] at hf
          push_cast at hf
          constructor
          · intro p hp
            dsimp only at hp
            rw [List.mem_append, List.mem_singleton] at hp
            rcases hp with hp | hp
            · exact h1 p hp
            · rw [hp]
              dsimp only
              rw [List.length_append, List.length_singleton]
              omega
          · dsimp only
            simpa using hspf
        · rename_i hne hf
          rw [List.length_append, List.length_singleton] at hf
          constructor
          · intro p hp
            exact h1 p hp
          · dsimp only
            rw [List.length_append, List.length_singleton]
            push_cast at hf ⊢
            omega
    · exact ⟨h1, h2⟩

theorem foldl_batchInv (spf : Int) (hspf : 0 < spf) (stem : String)
    (lines : List String) (st : SplitState)
    (h1 : ∀ p ∈ st.files, (Prod.snd p).length = spf.toNat)
    (h2 : (st.statements.length : Int) < spf) :
    (∀ p ∈ (lines.foldl (processLine spf stem) st).files,
        (Prod.snd p).length = spf.toNat) ∧
    (((lines.foldl (processLine spf stem) st).statements.length : Int) < spf) := by
  induction lines generalizing st with
  | nil => exact ⟨h1, h2⟩
  | cons line rest ih =>
      have h := processLine_batchInv spf hspf stem st line h1 h2
      rw [List.foldl_cons]
      exact ih (processLine spf stem st line) h.1 h.2

/-- `finalize` either writes no extra file, or appends exactly one non-empty
batch drawn from the pending statements plus at most one trailing statement. -/
theorem finalize_files (stem : String) (st : SplitState) :
    (finalize stem st).files = st.files ∨
    ∃ nm B, (finalize stem st).files = st.files ++ [(nm, B)] ∧ B ≠ [] ∧
      B.length ≤ st.statements.length + 1 := by
  by_cases h0 : st.currentStatement = []
  · by_cases h1 : st.statements = []
    · left
      simp [finalize, h0, h1]
    · right
      refine ⟨partFileName stem st.fileIndex, st.statements, ?_, h1, ?_⟩
      · simp [finalize, h0, h1]
      · omega
  · by_cases he : pyStrip (String.join st.currentStatement) = ""
    · by_cases h1 : st.statements = []
      · left
        simp [finalize, h0, he, h1]
      · right
        refine ⟨partFileName stem st.fileIndex, st.statements, ?_, h1, ?_⟩
        · simp [finalize, h0, he, h1]
        · omega
    · right
      refine ⟨partFileName stem st.fileIndex,
        st.statements ++ [pyStrip (String.join st.currentStatement)], ?_, ?_, ?_⟩
      · simp [finalize, h0, he]
      · simp
      · simp

/-- With a positive `statements_per_file`, every flushed batch but the last
holds exactly `spf` statements, every batch is non-empty and holds at most
`spf`, and no file is written when the input yields no statements. -/
theorem splitSql_batch_bounds (spf : Int) (hspf : 0 < spf) (stem : String)
    (lines : List String) :
    (∀ b ∈ ((splitSql spf stem lines).files.map Prod.snd).dropLast,
        b.length = spf.toNat) ∧
    (∀ b ∈ (splitSql spf stem lines).files.map Prod.snd,
        1 ≤ b.length ∧ b.length ≤ spf.toNat) ∧
    (extractStatements lines = [] → (splitSql spf stem lines).files = []) := by
  have hflat := (splitSql_flatten spf stem lines).1
  have hinv := foldl_batchInv spf hspf stem lines initState
    (by intro p hp; simp [initState] at hp) (by simpa [initState] using hspf)
  have hone : 1 ≤ spf.toNat := by omega
  rcases finalize_files stem (lines.foldl (processLine spf stem) initState) with
    hF | ⟨nm, B, hF, hBne, hBle⟩
  · have hfiles : (splitSql spf stem lines).files
        = (lines.foldl (processLine spf stem) initState).files := hF
    have hmem : ∀ b ∈ (splitSql spf stem lines).files.map Prod.snd,
        b.length = spf.toNat := by
      intro b hb
      rw [hfiles, List.mem_map] at hb
      rcases hb with ⟨p, hp, hpb⟩
      rw [← hpb]
      exact hinv.1 p hp
    refine ⟨?_, ?_, ?_⟩
    · intro b hb
      exact hmem b (List.dropLast_subset _ hb)
    · intro b hb
      rw [hmem b hb]
      exact ⟨hone, le_refl _⟩
    · intro hnil
      rw [hnil] at hflat
      cases hfiles2 : (splitSql spf stem lines).files with
      | nil => rfl
      | cons p rest =>
          exfalso
          have hpmem : Prod.snd p ∈ (splitSql spf stem lines).files.map Prod.snd := by
            rw [hfiles2]
            exact List.mem_map_of_mem Prod.snd (List.mem_cons_self p rest)
          have hplen : (Prod.snd p).length = spf.toNat := hmem _ hpmem
          have : Prod.snd p = [] := by
            rw [List.flatten_eq_nil_iff] at hflat
            exact hflat _ hpmem
          rw [this] at hplen
          simp at hplen
          omega
  · have hfiles : (splitSql spf stem lines).files
        = (lines.foldl (processLine spf stem) initState).files ++ [(nm, B)] := hF
    have hBlen : 1 ≤ B.length ∧ B.length ≤ spf.toNat := by
      constructor
      · cases B with
        | nil => exact absurd rfl hBne
        | cons x xs => simp
      · have := hinv.2
        omega
    have hmem : ∀ b ∈ (splitSql spf stem lines).files.map Prod.snd,
        1 ≤ b.length ∧ b.length ≤ spf.toNat := by
      intro b hb
      rw [hfiles, List.map_append, List.mem_append] at hb
      rcases hb with hb | hb
      · rw [List.mem_map] at hb
        rcases hb with ⟨p, hp, hpb⟩
        have := hinv.1 p hp
        rw [hpb] at this
        rw [this]
        exact ⟨hone, le_refl _⟩
      · simp only [List.map_cons, List.map_nil, List.mem_singleton] at hb
        rw [hb]
        exact hBlen
    refine ⟨?_, hmem, ?_⟩
    · intro b hb
      rw [hfiles, List.map_append] at hb
      simp only [List.map_cons, List.map_nil] at hb
      rw [List.dropLast_concat] at hb
      rw [List.mem_map] at hb
      rcases hb with ⟨p, hp, hpb⟩
      rw [← hpb]
      exact hinv.1 p hp
    · intro hnil
      exfalso
      rw [hnil] at hflat
      rw [List.flatten_eq_nil_iff] at hflat
      have hBmem : B ∈ (splitSql spf stem lines).files.map Prod.snd := by
        rw [hfiles, List.map_append]
        simp
      exact hBne (hflat _ hBmem)

/-! ### Behaviour for non-positive statements_per_file -/

theorem processLine_singleInv (spf : Int) (hspf : spf ≤ 0) (stem : String)
    (st : SplitState) (line : String)
    (h1 : ∀ p ∈ st.files, (Prod.snd p).length = 1)
    (h2 : st.statements = []) :
    (∀ p ∈ (processLine spf stem st line).files, (Prod.snd p).length = 1) ∧
    (processLine spf stem st line).statements = [] := by
  simp only [processLine]
  split
  · exact ⟨h1, h2⟩
  · split
    · split
      · exact ⟨h1, h2⟩
      · split
        · rename_i hne hf
          constructor
          · intro p hp
            dsimp only at hp
            rw [List.mem_append, List.mem_singleton] at hp
            rcases hp with hp | hp
            · exact h1 p hp
            · rw [hp]
              dsimp only
              rw [h2]
              simp
          · rfl
        · rename_i hne hf
          exfalso
          rw [h2] at hf
          simp at hf
          omega
    · exact ⟨h1, h2⟩

theorem foldl_singleInv (spf : Int) (hspf : spf ≤ 0) (stem : String)
    (lines : List String) (st : SplitState)
    (h1 : ∀ p ∈ st.files, (Prod.snd p).length = 1)
    (h2 : st.statements = []) :
    (∀ p ∈ (lines.foldl (processLine spf stem) st).files, (Prod.snd p).length = 1) ∧
    (lines.foldl (processLine spf stem) st).statements = [] := by
  induction lines generalizing st with
  | nil => exact ⟨h1, h2⟩
  | cons line rest ih =>
      have h := processLine_singleInv spf hspf stem st line h1 h2
      rw [List.foldl_cons]
      exact ih (processLine spf stem st line) h.1 h.2

/-- With a zero or negative `statements_per_file`, the run still completes
and every written file holds exactly one statement. -/
theorem splitSql_single (spf : Int) (hspf : spf ≤ 0) (stem : String)
    (lines : List String) :
    ∀ b ∈ (splitSql spf stem lines).files.map Prod.snd, b.length = 1 := by
  have hinv := foldl_singleInv spf hspf stem lines initState
    (by intro p hp; simp [initState] at hp) rfl
  rcases finalize_files stem (lines.foldl (processLine spf stem) initState) with
    hF | ⟨nm, B, hF, hBne, hBle⟩
  · intro b hb
    have hfiles : (splitSql spf stem lines).files
        = (lines.foldl (processLine spf stem) initState).files := hF
    rw [hfiles, List.mem_map] at hb
    rcases hb with ⟨p, hp, hpb⟩
    rw [← hpb]
    exact hinv.1 p hp
  · intro b hb
    have hfiles : (splitSql spf stem lines).files
        = (lines.foldl (processLine spf stem) initState).files ++ [(nm, B)] := hF
    rw [hfiles, List.map_append, List.mem_append] at hb
    rcases hb with hb | hb
    · rw [List.mem_map] at hb
      rcases hb with ⟨p, hp, hpb⟩
      rw [← hpb]
      exact hinv.1 p hp
    · simp only [List.map_cons, List.map_nil, List.mem_singleton] at hb
      rw [hb]
      rw [hinv.2] at hBle
      simp only [List.length_nil] at hBle
      cases B with
      | nil => exact absurd rfl hBne
      | cons x xs =>
          simp only [List.length_cons] at hBle ⊢
          omega

/-! ### File-name contiguity -/

theorem processLine_nameInv (spf : Int) (stem : String) (st : SplitState) (line : String)
    (h1 : st.fileIndex = st.files.length)
    (h2 : st.files.map Prod.fst = (List.range st.files.length).map (partFileName stem)) :
    (processLine spf stem st line).fileIndex = (processLine spf stem st line).files.length ∧
    (processLine spf stem st line).files.map Prod.fst
      = (List.range (processLine spf stem st line).files.length).map (partFileName stem) := by
  simp only [processLine]
  split
  · exact ⟨h1, h2⟩
  · split
    · split
      · exact ⟨h1, h2⟩
      · split
        · constructor
          · dsimp only
            rw [List.length_append, List.length_singleton, h1]
          · dsimp only
            simp [List.range_succ, h1, h2]
        · exact ⟨h1, h2⟩
    · exact ⟨h1, h2⟩

theorem foldl_nameInv (spf : Int) (stem : String) (lines : List String) (st : SplitState)
    (h1 : st.fileIndex = st.files.length)
    (h2 : st.files.map Prod.fst = (List.range st.files.length).map (partFileName stem)) :
    (lines.foldl (processLine spf stem) st).fileIndex
      = (lines.foldl (processLine spf stem) st).files.length ∧
    (lines.foldl (processLine spf stem) st).files.map Prod.fst
      = (List.range (lines.foldl (processLine spf stem) st).files.length).map
          (partFileName stem) := by
  induction lines generalizing st with
  | nil => exact ⟨h1, h2⟩
  | cons line rest ih =>
      have h := processLine_nameInv spf stem st line h1 h2
      rw [List.foldl_cons]
      exact ih (processLine spf stem st line) h.1 h.2

theorem finalize_nameInv (stem : String) (st : SplitState)
    (h1 : st.fileIndex = st.files.length)
    (h2 : st.files.map Prod.fst = (List.range st.files.length).map (partFileName stem)) :
    (finalize stem st).files.map Prod.fst
      = (List.range (finalize stem st).files.length).map (partFileName stem) := by
  by_cases h0 : st.currentStatement = []
  · by_cases hs : st.statements = []
    · simp [finalize, h0, hs, h2]
    · simp [finalize, h0, hs, List.range_succ, h1, h2]
  · by_cases he : pyStrip (String.join st.currentStatement) = ""
    · by_cases hs : st.statements = []
      · simp [finalize, h0, he, hs, h2]
      · simp [finalize, h0, he, hs, List.range_succ, h1, h2]
    · have hne : st.statements ++ [pyStrip (String.join st.currentStatement)] ≠ [] := by
        simp
      simp [finalize, h0, he, hne, List.range_succ, h1, h2]

/-- The names handed to the writer are `partFileName stem 0 .. partFileName
stem (N-1)`, in order: contiguous 1-based indices once formatted. -/
theorem splitSql_names (spf : Int) (stem : String) (lines : List String) :
    (splitSql spf stem lines).files.map Prod.fst
      = (List.range (splitSql spf stem lines).files.length).map (partFileName stem) := by
  have h := foldl_nameInv spf stem lines initState rfl rfl
  exact finalize_nameInv stem (lines.foldl (processLine spf stem) initState) h.1 h.2

/-! ### Progress reporting cannot influence the output -/

/-- `split_sql` with the progress collaborator threaded through explicitly:
before each line is handled, an arbitrary progress-update function receives
the line's UTF-8 byte length (as `_update_progress(len(line.encode('utf-8')))`
does); `π` stands for whatever state the reporter keeps (clock readings,
cumulative byte count, throttling timestamps). -/
def splitSqlP {π : Type} (update : π → Nat → π) (spf : Int) (stem : String)
    (lines : List String) (p0 : π) : SplitState × π :=
  let r := lines.foldl
    (fun sp line => (processLine spf stem sp.1 line, update sp.2 line.utf8ByteSize))
    (initState, p0)
  (finalize stem r.1, r.2)

theorem foldlP_fst {π : Type} (update : π → Nat → π) (spf : Int) (stem : String)
    (lines : List String) (st : SplitState) (p : π) :
    (lines.foldl
      (fun sp line => (processLine spf stem sp.1 line, update sp.2 line.utf8ByteSize))
      (st, p)).1 = lines.foldl (processLine spf stem) st := by
  induction lines generalizing st p with
  | nil => rfl
  | cons line rest ih =>
      rw [List.foldl_cons, List.foldl_cons]
      exact ih (processLine spf stem st line) (update p line.utf8ByteSize)

/-- Whatever the progress reporter computes, the splitting output is the
same as the pure pass. -/
theorem splitSqlP_fst {π : Type} (update : π → Nat → π) (spf : Int) (stem : String)
    (lines : List String) (p0 : π) :
    (splitSqlP update spf stem lines p0).1 = splitSql spf stem lines := by
  unfold splitSqlP splitSql
  dsimp only
  rw [foldlP_fst]

/-! ### Output file writing and the constructor's filesystem effects -/

/-- A directory's contents: each file name maps to its content, if present. -/
def writeFileTo (dir : String → Option String) (name content : String) :
    String → Option String :=
  fun n => if n = name then some content else dir n

/-- `_write_statements_to_file`: open the part file for writing (mode `'w'`,
replacing any previous content) and write the joined statements. -/
def writeStatementsToFile (dir : String → Option String) (stem : String)
    (statements : List String) (fileIndex : Nat) : String → Option String :=
  writeFileTo dir (partFileName stem fileIndex) (fileContent statements)

/-- The filesystem as the constructor sees it: the set of existing
directories and the set of existing files. -/
structure World where
  dirs : List String
  files : List String
deriving Repr, DecidableEq

/-- Split a path into its `/`-separated components. -/
def splitOnSlash : List Char → List (List Char)
  | [] => [[]]
  | c :: rest =>
      let r := splitOnSlash rest
      if c = '/' then [] :: r
      else (c :: r.headD []) :: r.tail

/-- Rejoin path components with `/`. -/
def joinSlash : List (List Char) → List Char
  | [] => []
  | [x] => x
  | x :: y :: rest => x ++ '/' :: joinSlash (y :: rest)

/-- Every ancestor of a path, shortest first, ending with the path itself. -/
def pathAncestors (d : String) : List String :=
  (List.range (splitOnSlash d.data).length).map
    (fun i => String.mk (joinSlash ((splitOnSlash d.data).take (i + 1))))

/-- `os.makedirs(output_dir, exist_ok=True)`: create the directory and all
intermediate directories, never failing if they exist. -/
def makedirs (w : World) (d : String) : World :=
  { w with dirs := w.dirs ++ pathAncestors d }

/-- The error `SQLSplitter.__init__` raises when the input file is missing. -/
inductive InitError where
  | fileNotFound (path : String)
deriving Repr, DecidableEq

/-- The filesystem-visible part of `SQLSplitter.__init__`: create the output
directory first, then check that the input file exists and raise
`FileNotFoundError` if it does not.  (The subsequent size inspection and
progress-field initialisation run only when the file exists and touch no
filesystem state.) -/
def initSplitter (w : World) (inputFile outDir : String) :
    World × Option InitError :=
  let w1 := makedirs w outDir
  if w1.files.contains inputFile then (w1, none)
  else (w1, some (InitError.fileNotFound inputFile))

theorem splitOnSlash_ne_nil (l : List Char) : splitOnSlash l ≠ [] := by
  cases l with
  | nil => simp [splitOnSlash]
  | cons c rest =>
      simp only [splitOnSlash]
      split
      · simp
      · simp

theorem joinSlash_cons (c : Char) (y : List Char) (t : List (List Char)) :
    joinSlash ((c :: y) :: t) = c :: joinSlash (y :: t) := by
  cases t with
  | nil => rfl
  | cons z rest => rfl

theorem joinSlash_splitOnSlash (l : List Char) :
    joinSlash (splitOnSlash l) = l := by
  induction l with
  | nil => rfl
  | cons c rest ih =>
      rcases hr : splitOnSlash rest with _ | ⟨y, t⟩
      · exact absurd hr (splitOnSlash_ne_nil rest)
      · rw [hr] at ih
        simp only [splitOnSlash]
        rw [hr]
        by_cases hc : c = '/'
        · subst hc
          rw [if_pos rfl]
          have hj : joinSlash ([] :: y :: t) = '/' :: joinSlash (y :: t) := rfl
          rw [hj, ih]
        · rw [if_neg hc]
          simp only [List.headD_cons, List.tail_cons]
          rw [joinSlash_cons, ih]

/-- The full output directory path is among the paths `makedirs` creates. -/
theorem mem_pathAncestors_self (d : String) : d ∈ pathAncestors d := by
  unfold pathAncestors
  rw [List.mem_map]
  refine ⟨(splitOnSlash d.data).length - 1, ?_, ?_⟩
  · rw [List.mem_range]
    have := splitOnSlash_ne_nil d.data
    cases h : splitOnSlash d.data with
    | nil => exact absurd h this
    | cons x xs => simp [h]
  · have hlen : (splitOnSlash d.data).length - 1 + 1 = (splitOnSlash d.data).length := by
      have := splitOnSlash_ne_nil d.data
      cases h : splitOnSlash d.data with
      | nil => exact absurd h this
      | cons x xs => simp [h]
    rw [hlen, List.take_length, joinSlash_splitOnSlash]

/-! ### The claims -/

/-- C1: for every run with a positive `statements_per_file`, every output
file except possibly the one with the highest index holds exactly
`statements_per_file` statements, every output file holds between 1 and
`statements_per_file` statements (so in particular the last one does), and
if the input yields zero statements no output file is produced. -/
theorem claim_C1 (spf : Int) (hspf : 0 < spf) (stem : String) (lines : List String) :
    (∀ b ∈ ((splitSql spf stem lines).files.map Prod.snd).dropLast,
        b.length = spf.toNat) ∧
    (∀ b ∈ (splitSql spf stem lines).files.map Prod.snd,
        1 ≤ b.length ∧ b.length ≤ spf.toNat) ∧
    (extractStatements lines = [] → (splitSql spf stem lines).files = []) :=
  splitSql_batch_bounds spf hspf stem lines

theorem claim_C1_witness :
    (0 : Int) < 2 ∧
    ((∀ b ∈ ((splitSql 2 "x" ["A;\n", "B;\n", "C;\n"]).files.map Prod.snd).dropLast,
        b.length = (2 : Int).toNat) ∧
    (∀ b ∈ (splitSql 2 "x" ["A;\n", "B;\n", "C;\n"]).files.map Prod.snd,
        1 ≤ b.length ∧ b.length ≤ (2 : Int).toNat) ∧
    (extractStatements ["A;\n", "B;\n", "C;\n"] = [] →
        (splitSql 2 "x" ["A;\n", "B;\n", "C;\n"]).files = [])) :=
  ⟨by decide, claim_C1 2 (by decide) "x" ["A;\n", "B;\n", "C;\n"]⟩

/-- C2, refuted as stated: with `statements_per_file = 0` the splitter does
not fail with a configuration error — no validation exists anywhere — and it
proceeds to read the input and write output files. -/
theorem claim_C2_counterexample :
    (splitSql 0 "x" ["A;\n", "B;\n"]).files
      = [("x_part001.sql", ["A;"]), ("x_part002.sql", ["B;"])] ∧
    (splitSql 0 "x" ["A;\n", "B;\n"]).files ≠ [] := by
  constructor
  · decide
  · decide

/-- C2, amended: for every zero or negative `statements_per_file`, no
configuration error is raised; the splitter proceeds normally, and since the
flush threshold `len(statements) >= statements_per_file` is met as soon as
one statement is batched, every output file holds exactly one statement,
and together the files still carry the whole statement sequence. -/
theorem claim_C2 (spf : Int) (hspf : spf ≤ 0) (stem : String) (lines : List String) :
    (∀ b ∈ (splitSql spf stem lines).files.map Prod.snd, b.length = 1) ∧
    ((splitSql spf stem lines).files.map Prod.snd).flatten = extractStatements lines :=
  ⟨splitSql_single spf hspf stem lines, (splitSql_flatten spf stem lines).1⟩

theorem claim_C2_witness :
    (0 : Int) ≤ 0 ∧
    ((∀ b ∈ (splitSql 0 "x" ["A;\n", "B;\n"]).files.map Prod.snd, b.length = 1) ∧
    ((splitSql 0 "x" ["A;\n", "B;\n"]).files.map Prod.snd).flatten
      = extractStatements ["A;\n", "B;\n"]) :=
  ⟨by decide, claim_C2 0 (by decide) "x" ["A;\n", "B;\n"]⟩

/-- C3: statement order is preserved across batches and files, and every
statement the boundary-detection algorithm produces lands in exactly one
output file: concatenating the batches written to the files, in file-index
then intra-file order, yields exactly the sequence the single-pass
algorithm produces over the whole input — for every input and every
`statements_per_file`. -/
theorem claim_C3 (spf : Int) (stem : String) (lines : List String) :
    ((splitSql spf stem lines).files.map Prod.snd).flatten = extractStatements lines :=
  (splitSql_flatten spf stem lines).1

/-- C4: the file names written during a run are exactly
`{stem}_part001.sql` … `{stem}_part{N}.sql` — the `i`-th written file (from
0) is named with index `i+1`, so indices are contiguous and 1-based — and
the index is zero-padded to a minimum width of 3, growing naturally
beyond 999. -/
theorem claim_C4 (spf : Int) (stem : String) (lines : List String) :
    (splitSql spf stem lines).files.map Prod.fst
      = (List.range (splitSql spf stem lines).files.length).map (partFileName stem) ∧
    partFileName "dump" 0 = "dump_part001.sql" ∧
    partFileName "dump" 998 = "dump_part999.sql" ∧
    partFileName "dump" 999 = "dump_part1000.sql" :=
  ⟨splitSql_names spf stem lines, by decide, by decide, by decide⟩

/-- C5: a line whose trimmed form starts with `--` or `/*` is skipped
entirely — it changes neither the splitter state (so it is never appended to
the statement buffer, and its semicolons never trigger terminator logic)
nor the pure extraction state; `-- comment` followed by `SELECT 1;` yields
the single statement `SELECT 1;`. -/
theorem claim_C5 (spf : Int) (stem : String) (st : SplitState) (line : String)
    (h : isCommentLine line = true) :
    processLine spf stem st line = st ∧
    extractStep (seqOf st, st.currentStatement) line = (seqOf st, st.currentStatement) ∧
    extractStatements ["-- comment\n", "SELECT 1;\n"] = ["SELECT 1;"] := by
  refine ⟨?_, ?_, by decide⟩
  · simp [processLine, h]
  · simp [extractStep, h]

theorem claim_C5_witness :
    isCommentLine "-- comment\n" = true ∧
    (processLine 5 "x" initState "-- comment\n" = initState ∧
    extractStep (seqOf initState, initState.currentStatement) "-- comment\n"
      = (seqOf initState, initState.currentStatement) ∧
    extractStatements ["-- comment\n", "SELECT 1;\n"] = ["SELECT 1;"]) :=
  ⟨by decide, claim_C5 5 "x" initState "-- comment\n" (by decide)⟩

/-- C6: when input ends with unterminated content, the remaining buffer is
joined, trimmed, and appended to the batch as one final statement: the
statement sequence after `finalize` is the previous sequence plus that
statement; `SELECT 1;\nSELECT 2` (no trailing semicolon) yields the two
statements `SELECT 1;` and `SELECT 2`. -/
theorem claim_C6 (stem : String) (st : SplitState)
    (h1 : st.currentStatement ≠ [])
    (h2 : pyStrip (String.join st.currentStatement) ≠ "") :
    seqOf (finalize stem st) = seqOf st ++ [pyStrip (String.join st.currentStatement)] ∧
    extractStatements ["SELECT 1;\n", "SELECT 2"] = ["SELECT 1;", "SELECT 2"] := by
  refine ⟨?_, by decide⟩
  rw [(finalize_seq stem st).1]
  simp [extractFinal, h1, h2]

theorem claim_C6_witness :
    (SplitState.mk [] ["SELECT 2"] 0 0 []).currentStatement ≠ [] ∧
    pyStrip (String.join (SplitState.mk [] ["SELECT 2"] 0 0 []).currentStatement) ≠ "" ∧
    (seqOf (finalize "x" (SplitState.mk [] ["SELECT 2"] 0 0 []))
      = seqOf (SplitState.mk [] ["SELECT 2"] 0 0 [])
        ++ [pyStrip (String.join (SplitState.mk [] ["SELECT 2"] 0 0 []).currentStatement)] ∧
    extractStatements ["SELECT 1;\n", "SELECT 2"] = ["SELECT 1;", "SELECT 2"]) :=
  ⟨by decide, by decide, claim_C6 "x" (SplitState.mk [] ["SELECT 2"] 0 0 [])
    (by decide) (by decide)⟩

/-- C7: a non-comment line holding one or more semicolons is never split
into several statements: after the line is processed the buffer is empty and
the statement sequence grew by at most one statement — the entire
accumulated buffer including the whole line, text after further semicolons
included; `SELECT 1; SELECT 2;` on one line comes out as the single
statement `SELECT 1; SELECT 2;`. -/
theorem claim_C7 (spf : Int) (stem : String) (st : SplitState) (line : String)
    (h1 : isCommentLine line = false) (h2 : containsSemi line = true) :
    (processLine spf stem st line).currentStatement = [] ∧
    seqOf (processLine spf stem st line)
      = seqOf st ++ (if pyStrip (String.join (st.currentStatement ++ [line])) = ""
          then [] else [pyStrip (String.join (st.currentStatement ++ [line]))]) ∧
    extractStatements ["SELECT 1; SELECT 2;\n"] = ["SELECT 1; SELECT 2;"] := by
  have h := processLine_seq spf stem st line
  refine ⟨?_, ?_, by decide⟩
  · rw [h.2]
    by_cases he : pyStrip (String.join (st.currentStatement ++ [line])) = ""
    · simp [extractStep, h1, h2, he]
    · simp [extractStep, h1, h2, he]
  · rw [h.1]
    by_cases he : pyStrip (String.join (st.currentStatement ++ [line])) = ""
    · simp [extractStep, h1, h2, he]
    · simp [extractStep, h1, h2, he]

theorem claim_C7_witness :
    isCommentLine "SELECT 1; SELECT 2;\n" = false ∧
    containsSemi "SELECT 1; SELECT 2;\n" = true ∧
    ((processLine 100 "x" initState "SELECT 1; SELECT 2;\n").currentStatement = [] ∧
    seqOf (processLine 100 "x" initState "SELECT 1; SELECT 2;\n")
      = seqOf initState
        ++ (if pyStrip (String.join (initState.currentStatement
              ++ ["SELECT 1; SELECT 2;\n"])) = ""
            then [] else [pyStrip (String.join (initState.currentStatement
              ++ ["SELECT 1; SELECT 2;\n"]))]) ∧
    extractStatements ["SELECT 1; SELECT 2;\n"] = ["SELECT 1; SELECT 2;"]) :=
  ⟨by decide, by decide,
    claim_C7 100 "x" initState "SELECT 1; SELECT 2;\n" (by decide) (by decide)⟩

/-- C8: for every batch of statements and zero-based file index, the writer
writes exactly one file — the one named with `index+1` zero-padded to at
least 3 digits — whose content is the statements joined by one blank line
with no trailing separator, and the write replaces any pre-existing file of
the same name while leaving every other file untouched. -/
theorem claim_C8 (dir : String → Option String) (stem : String)
    (statements : List String) (fileIndex : Nat) :
    writeStatementsToFile dir stem statements fileIndex (partFileName stem fileIndex)
      = some (fileContent statements) ∧
    (∀ n, n ≠ partFileName stem fileIndex →
        writeStatementsToFile dir stem statements fileIndex n = dir n) ∧
    fileContent ["SELECT 1;", "SELECT 2;", "SELECT 3;"]
      = "SELECT 1;\n\nSELECT 2;\n\nSELECT 3;" ∧
    partFileName "dump" 4 = "dump_part005.sql" := by
  refine ⟨?_, ?_, by decide, by decide⟩
  · simp [writeStatementsToFile, writeFileTo]
  · intro n hn
    simp [writeStatementsToFile, writeFileTo, hn]

theorem claim_C8_witness :
    writeStatementsToFile (fun _ => some "old") "x" ["A;"] 0 (partFileName "x" 0)
      = some (fileContent ["A;"]) ∧
    (∀ n, n ≠ partFileName "x" 0 →
        writeStatementsToFile (fun _ => some "old") "x" ["A;"] 0 n
          = (fun _ => some "old") n) ∧
    fileContent ["SELECT 1;", "SELECT 2;", "SELECT 3;"]
      = "SELECT 1;\n\nSELECT 2;\n\nSELECT 3;" ∧
    partFileName "dump" 4 = "dump_part005.sql" :=
  claim_C8 (fun _ => some "old") "x" ["A;"] 0

/-- C9: the split output is a deterministic function of the input lines and
`statements_per_file` alone — whatever state the progress reporter keeps and
however it updates it on each line's byte count (clocks, throttling,
reporting enabled or not), the resulting splitter state equals the pure
pass's, and any two runs with different reporters agree exactly. -/
theorem claim_C9 {π π' : Type} (update : π → Nat → π) (p0 : π)
    (update' : π' → Nat → π') (p0' : π') (spf : Int) (stem : String)
    (lines : List String) :
    (splitSqlP update spf stem lines p0).1 = splitSql spf stem lines ∧
    (splitSqlP update spf stem lines p0).1 = (splitSqlP update' spf stem lines p0').1 := by
  have ha := splitSqlP_fst update spf stem lines p0
  have hb := splitSqlP_fst update' spf stem lines p0'
  exact ⟨ha, ha.trans hb.symm⟩

/-- C10: constructing the splitter with a missing input file raises the
file-not-found error, but only after `os.makedirs` has run: the output
directory — and every intermediate directory on its path — exists in the
resulting filesystem state even though construction failed. -/
theorem claim_C10 (w : World) (inputFile outDir : String)
    (h : w.files.contains inputFile = false) :
    (initSplitter w inputFile outDir).2 = some (InitError.fileNotFound inputFile) ∧
    outDir ∈ (initSplitter w inputFile outDir).1.dirs ∧
    ∀ p ∈ pathAncestors outDir, p ∈ (initSplitter w inputFile outDir).1.dirs := by
  have hw1 : (initSplitter w inputFile outDir).1 = makedirs w outDir := by
    unfold initSplitter
    dsimp only
    split
    · rfl
    · rfl
  have hmem : ¬ inputFile ∈ w.files := by simpa using h
  refine ⟨?_, ?_, ?_⟩
  · simp [initSplitter, makedirs, hmem]
  · rw [hw1]
    exact List.mem_append_right _ (mem_pathAncestors_self outDir)
  · intro p hp
    rw [hw1]
    exact List.mem_append_right _ hp

theorem claim_C10_witness :
    (World.mk [] ["other.sql"]).files.contains "in.sql" = false ∧
    ((initSplitter (World.mk [] ["other.sql"]) "in.sql" "out/dir").2
      = some (InitError.fileNotFound "in.sql") ∧
    "out/dir" ∈ (initSplitter (World.mk [] ["other.sql"]) "in.sql" "out/dir").1.dirs ∧
    ∀ p ∈ pathAncestors "out/dir",
      p ∈ (initSplitter (World.mk [] ["other.sql"]) "in.sql" "out/dir").1.dirs) :=
  ⟨by decide, claim_C10 (World.mk [] ["other.sql"]) "in.sql" "out/dir" (by decide)⟩
